import Mathlib

/-!
Shallow embedding of the prime-search engine in `src/P1/prime_threads.cpp`:
the primality predicates (`is_prime_single`, `is_prime_parallel`), the two
work-partitioning drivers (`run_division_range`, `run_division_per_number`),
and the dual-mode event logger (`Logger::raw` / `Logger::flush`).

Machine integers: `u64` values are modelled as `Nat` with an explicit
`% W` (`W = 2 ^ 64`) at the one place where overflow can actually occur,
the products `N * 1ULL * t` inside `block_of`.  Loop counters stay below
their bounds and cannot wrap.  `int` fields (`threads`, `log_every`, the
check counter) are modelled as `Int`.

String formatting and wall-clock timestamps (`now_stamp`) are presentation
only; log events are modelled structurally as (thread id, category,
numeric payload).
-/

/-- 2^64, the modulus of the C++ `u64` (`unsigned long long`) type. -/
def W : Nat := 2 ^ 64

/-- The `Config` fields the engine itself reads (`struct Config`).  The
`division`/`printing` selectors are modelled by choosing which driver /
logger mode is applied; `list_primes` only affects the excluded renderer. -/
structure Config where
  threads : Int
  max_value : Nat
  skip_even : Bool
  use_6k : Bool
  log_every : Int
deriving DecidableEq

/-- `std::max(1, cfg.threads)` as used by both drivers and
`is_prime_parallel` (lines 201, 253, 298), returning the worker count. -/
def clampT (threads : Int) : Nat := (max 1 threads).toNat

/-- `is_6kpm1` (line 159): `(d % 6 == 1) || (d % 6 == 5)`. -/
def is_6kpm1 (d : Nat) : Bool := d % 6 == 1 || d % 6 == 5

/-- Helper for `usqrt`: the largest `r ≤ b` with `r * r ≤ n`, by downward
search (kernel-reducible, unlike `Nat.sqrt`'s well-founded recursion). -/
def usqrtGo (n : Nat) : Nat → Nat
  | 0 => 0
  | r + 1 => if (r + 1) * (r + 1) <= n then r + 1 else usqrtGo n r

/-- Floor square root: the value of `(u64)std::sqrt((long double)n)`,
which is exact (`= ⌊√n⌋`) on the ranges the spec quantifies over.
`usqrt_eq_sqrt` below proves it equal to Mathlib's `Nat.sqrt`. -/
def usqrt (n : Nat) : Nat := usqrtGo n n

/-- The divisor sequence scanned by `is_prime_single` after its `d = 2`
handling.  The `use_6k` loop is `for (d = 3; d <= limit; ++d)` filtered by
`is_6kpm1`; the other loop `for (d = 3; d <= limit; d += 2)` visits exactly
the odd `d` in `[3, limit]`, rendered here as a filter of the full range. -/
def singleDivs (cfg : Config) (limit : Nat) : List Nat :=
  if cfg.use_6k then (List.range' 3 (limit + 1 - 3)).filter is_6kpm1
  else (List.range' 3 (limit + 1 - 3)).filter (fun d => d % 2 == 1)

/-- Decision of `is_prime_single` (lines 162-193), logging stripped (the
instrumented variant `isPrimeSingleEv` below carries the events; early
return on the first divisor found agrees with `List.all`).  `limit` is
`(u64)std::sqrt((long double)n)` = `usqrt n`. -/
def isPrimeSingle (cfg : Config) (n : Nat) : Bool :=
  if n < 2 then false
  else if n == 2 then true
  else if cfg.skip_even && n % 2 == 0 then false
  else if !cfg.skip_even && n % 2 == 0 then false
  else (singleDivs cfg (usqrt n)).all (fun d => !(n % d == 0))

/-- The candidate-divisor vector `cand` built by `is_prime_parallel`
(lines 203-209): `2` when `!skip_even`, then the odd `d` in `[3, limit]`,
dropping non-`6k±1` residues when `use_6k`. -/
def candList (cfg : Config) (limit : Nat) : List Nat :=
  (if !cfg.skip_even then [2] else []) ++
    ((List.range' 3 (limit + 1 - 3)).filter (fun d => d % 2 == 1)).filter
      (fun d => !cfg.use_6k || is_6kpm1 d)

/-- Decision of `is_prime_parallel` (lines 196-242).  The workers race on
the shared `found` flag, but `found` is only ever stored `true` by a worker
that saw `n % d == 0`, and a worker only stops early once `found` is `true`;
hence the joined result `!found` equals "no candidate divides `n`",
independent of scheduling.  Empty `cand` returns `true` before spawning. -/
def isPrimeParallel (cfg : Config) (n : Nat) : Bool :=
  if n < 2 then false
  else if n == 2 then true
  else if cfg.skip_even && n % 2 == 0 then false
  else (candList cfg (usqrt n)).all (fun d => !(n % d == 0))

/-- `block_of` start (lines 260-263): `(N * 1ULL * t) / T + 1`, the u64
product reduced `% W`, then clamped below by 2 (`if (start < 2) start = 2`). -/
def blockLo (N T t : Nat) : Nat := max (N * t % W / T + 1) 2

/-- `block_of` end (line 261): `(N * 1ULL * (t + 1)) / T`, inclusive. -/
def blockHi (N T t : Nat) : Nat := N * (t + 1) % W / T

/-- `block_of t` as the pair `(lo, hi)` handed to worker `t`. -/
def blockOf (N T t : Nat) : Nat × Nat := (blockLo N T t, blockHi N T t)

/-- The numbers scanned by worker `t`'s loop `for (n = lo; n <= hi; ++n)`
(empty when `lo > hi`).  The finite range models the loop only while it
terminates, i.e. while `hi < 2^64 - 1`: at `hi = UINT64_MAX` the u64
condition `n <= hi` is always true, `++n` wraps, and the C++ loop never
exits — theorems about a whole run therefore carry `N < W - 1`. -/
def blockList (N T t : Nat) : List Nat :=
  List.range' (blockLo N T t) (blockHi N T t + 1 - blockLo N T t)

/-- Worker `t`'s contribution to `rr.processed`:
`hi >= lo ? hi - lo + 1 : 0`, which is `hi + 1 - lo` in truncated `Nat`
subtraction. -/
def blockProcessed (N T t : Nat) : Nat :=
  blockHi N T t + 1 - blockLo N T t

/-- Worker `t`'s `local` prime vector in `run_division_range`: the members
of its block passing `is_prime_single`, in ascending scan order. -/
def blockPrimes (cfg : Config) (t : Nat) : List Nat :=
  (blockList cfg.max_value (clampT cfg.threads) t).filter (isPrimeSingle cfg)

/-- `struct RunResult` (lines 245-249). -/
structure RunResult where
  primes : List Nat
  processed : Nat
  primes_per_thread : List Nat
deriving DecidableEq

/-- `run_division_range` (lines 251-294).  Workers merge their outcomes
under `primes_m` in a scheduling-dependent order; `order` is that merge
order (a permutation of `0, ..., T-1`).  `primes` concatenates the local
vectors in merge order; `processed` accumulates the u64 block sizes
(`% W`); slot `t` of `primes_per_thread` is written only by worker `t`. -/
def runDivisionRange (cfg : Config) (order : List Nat) : RunResult :=
  ⟨order.flatMap (fun t => blockPrimes cfg t),
   (order.map (fun t => blockProcessed cfg.max_value (clampT cfg.threads) t)).sum % W,
   (List.range (clampT cfg.threads)).map (fun t => (blockPrimes cfg t).length)⟩

/-- The per-worker processed contributions of a Range-mode run, indexed by
thread: what §3's `perThreadProcessed` denotes for this code. -/
def perThreadProcessed (cfg : Config) : List Nat :=
  (List.range (clampT cfg.threads)).map
    (fun t => blockProcessed cfg.max_value (clampT cfg.threads) t)

/-- Whether the `run_division_per_number` loop body (lines 303-312) pushes
`n` onto `rr.primes`: not skipped by the even shortcut
(`skip_even && n > 2 && n % 2 == 0`) and accepted by `is_prime_parallel`. -/
def perNumberKeeps (cfg : Config) (n : Nat) : Bool :=
  !(cfg.skip_even && decide (2 < n) && n % 2 == 0) && isPrimeParallel cfg n

/-- `run_division_per_number` (lines 296-315): candidates `n = 2 .. N` in
order, each iteration incrementing `processed` exactly once (both the skip
branch and the tested branch do `rr.processed++`); `primes_per_thread` is
never assigned in this mode and stays empty.  The finite range models the
loop `for (n = 2; n <= N; ++n)` only while it terminates, i.e. for
`N < 2^64 - 1`: at `N = UINT64_MAX` the u64 loop never exits — theorems
about a whole run therefore carry `N < W - 1`. -/
def runDivisionPerNumber (cfg : Config) : RunResult :=
  ⟨(List.range' 2 (cfg.max_value + 1 - 2)).filter (perNumberKeeps cfg),
   (List.range' 2 (cfg.max_value + 1 - 2)).length % W,
   []⟩

/-- Event categories of the logger's tag strings
(`RUN`/`INFO`/`START`/`CHECK`/`PRIME`/`FINISH`). -/
inductive Category
  | RUN
  | INFO
  | START
  | CHECK
  | PRIME
  | FINISH
deriving DecidableEq

/-- One log line, structurally: the thread id passed to `Logger::ev`
(`-1` renders as `----`), the tag, and the numeric payload of the message.
The `now_stamp()` wall-clock prefix and string formatting are presentation
only and carry no information the engine computes. -/
structure Event where
  tid : Int
  cat : Category
  nums : List Nat
deriving DecidableEq

/-- `enum class PrintMode`. -/
inductive PMode
  | IMMEDIATE
  | DEFERRED
deriving DecidableEq

/-- Logger state: the deferred buffer `buf` and the lines already written
to `std::cout` (`out`), in order. -/
structure LoggerSt where
  buf : List Event
  out : List Event
deriving DecidableEq

/-- `Logger::raw` (lines 131-135): under the lock, immediate mode writes
the line to the stream; deferred mode appends it to `buf`. -/
def loggerRaw (mode : PMode) (st : LoggerSt) (e : Event) : LoggerSt :=
  match mode with
  | PMode.IMMEDIATE => ⟨st.buf, st.out ++ [e]⟩
  | PMode.DEFERRED => ⟨st.buf ++ [e], st.out⟩

/-- `Logger::flush` (lines 151-155): prints every buffered line, in buffer
order, then clears the buffer.  No partitioning, no sorting. -/
def loggerFlush (st : LoggerSt) : LoggerSt := ⟨[], st.out ++ st.buf⟩

/-- The `should_log` closure of `is_prime_single` (lines 167-171), with the
`++counter` threading: returns (emit this check?, updated counter). -/
def shouldLog (logEvery : Int) (c : Int) : Bool × Int :=
  if logEvery == 0 then (true, c)
  else if 0 < logEvery then ((c + 1) % logEvery == 0, c + 1)
  else (false, c)

/-- The divisor loop of `is_prime_single`, instrumented: scans `ds` in
order, optionally emitting a `CHECK d` event before each trial division,
and returns early on the first divisor found.  Result: (no divisor found,
final counter, events emitted in order). -/
def trialLoopEv (logEvery : Int) (tid : Int) (n : Nat) :
    List Nat → Int → Bool × Int × List Event
  | [], c => (true, c, [])
  | d :: ds, c =>
    let sl := shouldLog logEvery c
    let evs := if sl.1 then [⟨tid, Category.CHECK, [d]⟩] else []
    if n % d == 0 then (false, sl.2, evs)
    else
      let r := trialLoopEv logEvery tid n ds sl.2
      (r.1, r.2.1, evs ++ r.2.2)

/-- `is_prime_single` (lines 162-193) with its log events: returns
(verdict, updated per-thread check counter, `CHECK` events in emission
order).  The `!skip_even` branch may log `d=2` before the evenness test. -/
def isPrimeSingleEv (cfg : Config) (tid : Int) (n : Nat) (c : Int) :
    Bool × Int × List Event :=
  if n < 2 then (false, c, [])
  else if n == 2 then (true, c, [])
  else if cfg.skip_even && n % 2 == 0 then (false, c, [])
  else if !cfg.skip_even then
    let sl := shouldLog cfg.log_every c
    let evs0 := if sl.1 then [⟨tid, Category.CHECK, [2]⟩] else []
    if n % 2 == 0 then (false, sl.2, evs0)
    else
      let r := trialLoopEv cfg.log_every tid n (singleDivs cfg (usqrt n)) sl.2
      (r.1, r.2.1, evs0 ++ r.2.2)
  else
    let r := trialLoopEv cfg.log_every tid n (singleDivs cfg (usqrt n)) c
    (r.1, r.2.1, r.2.2)

/-- The body of Range worker `t`'s scan loop (lines 270-277), instrumented:
for each `n` of its block in order, the `CHECK` events of
`is_prime_single`, then `PRIME n` if it passed; `check_counter` is threaded
across the numbers of the block. -/
def workerScanEv (cfg : Config) (t : Nat) : List Nat → Int → List Event
  | [], _ => []
  | n :: ns, c =>
    let r := isPrimeSingleEv cfg (Int.ofNat t) n c
    r.2.2 ++ (if r.1 then [⟨Int.ofNat t, Category.PRIME, [n]⟩] else []) ++
      workerScanEv cfg t ns r.2.1

/-- All events Range worker `t` appends, in its own program order:
`START [lo, hi]`, the scan, `FINISH [lo, hi]` (lines 268-286), with
`check_counter` starting at 0. -/
def workerEvents (cfg : Config) (t : Nat) : List Event :=
  ⟨Int.ofNat t, Category.START,
    [blockLo cfg.max_value (clampT cfg.threads) t,
     blockHi cfg.max_value (clampT cfg.threads) t]⟩ ::
  (workerScanEv cfg t (blockList cfg.max_value (clampT cfg.threads) t) 0 ++
    [⟨Int.ofNat t, Category.FINISH,
      [blockLo cfg.max_value (clampT cfg.threads) t,
       blockHi cfg.max_value (clampT cfg.threads) t]⟩])

/-- The event sequence of one `run_division_range` call under the
sequential schedule (worker 0's events, then worker 1's, ...), bracketed by
the driver's two `RUN` lines.  When `T = 1` this is the only possible
interleaving: the single worker runs between the spawn and the join. -/
def rangeRunEventsSeq (cfg : Config) : List Event :=
  ⟨-1, Category.RUN, [cfg.max_value, clampT cfg.threads]⟩ ::
    ((List.range (clampT cfg.threads)).flatMap (fun t => workerEvents cfg t) ++
      [⟨-1, Category.RUN, []⟩])

/-- What a Deferred-mode Range run prints: every event goes through
`Logger::raw` into the buffer, and `Logger::flush` prints the buffer at end
of run (`main`, line 477). -/
def deferredRangeOut (cfg : Config) : List Event :=
  (loggerFlush ((rangeRunEventsSeq cfg).foldl (loggerRaw PMode.DEFERRED) ⟨[], []⟩)).out

/-- Whether `is_prime_parallel` reaches its spawn loop for candidate `n`
(lines 219-238): past the `n < 2`, `n == 2`, even-skip and empty-`cand`
early returns.  Only then does any worker thread (and worker `CHECK`
event) exist for this candidate. -/
def batchSpawns (cfg : Config) (n : Nat) : Bool :=
  decide (2 < n) && !(cfg.skip_even && n % 2 == 0) &&
    !(candList cfg (usqrt n)).isEmpty

/-- The event sequence of one `run_division_per_number` call (lines
296-315).  Candidates are strictly sequential; within candidate `n`, the
worker batch's `CHECK` events interleave nondeterministically, abstracted
as the schedule parameter `sched n` (empty when no batch is spawned).
Each prime is logged by the driver as `PRIME n` under thread id 0
("log under thread 0 so every line has a thread id", line 306). -/
def perNumberEventsWith (cfg : Config) (sched : Nat → List Event) : List Event :=
  ⟨-1, Category.RUN, [cfg.max_value, clampT cfg.threads]⟩ ::
    ((List.range' 2 (cfg.max_value + 1 - 2)).flatMap (fun n =>
      if cfg.skip_even && decide (2 < n) && n % 2 == 0 then []
      else
        (if batchSpawns cfg n then sched n else []) ++
          (if isPrimeParallel cfg n then [⟨0, Category.PRIME, [n]⟩] else [])) ++
      [⟨-1, Category.RUN, []⟩])

/-- Printing rank of the three buffered categories named by the spec's
deferred-mode guarantee: Start group first, then Finish, then Prime;
other categories are unconstrained by it. -/
def catRank : Category → Option Nat
  | Category.START => some 0
  | Category.FINISH => some 1
  | Category.PRIME => some 2
  | _ => none

/-- Claim-side predicate (from the spec's words, for comparison with the
code's output): the Start/Finish/Prime lines of an output appear grouped
in that fixed order, i.e. their ranks are monotone along the list. -/
def groupedByCategory (evs : List Event) : Prop :=
  List.Pairwise (fun a b => a ≤ b) (evs.filterMap (fun e => catRank e.cat))

/-- The concrete scenario config of C3:
`N = 30, T = 3, skipEven = true, use6k = false`. -/
def cfgC3 : Config := ⟨3, 30, true, false, 0⟩

/-- The deferred Range run used to refute C1's grouped-output claim:
`T = 1` (so the interleaving is deterministic), `N = 3`, `skipEven`,
per-divisor logs suppressed (`log_every = -1`). -/
def cfgC1 : Config := ⟨1, 3, true, false, -1⟩

/-- The PerNumber run used to refute C7's round-robin claim: `T = 3`,
`N = 8`, `skipEven` on, per-divisor logs as range summaries.  For every
candidate `n ≤ 8` the divisor list is empty, so no worker batch is ever
spawned and the run's event sequence is deterministic. -/
def cfgC7 : Config := ⟨3, 8, true, false, -1⟩

/-! ### Arithmetic facts about the block partition -/

/-- The clamped worker count is at least 1. -/
theorem clampT_pos (t : Int) : 0 < clampT t := by
  unfold clampT; omega

/-- No overflow: when `N * T < 2^64`, the u64 product `N * t` for `t ≤ T`
is its mathematical value. -/
theorem mulModW (N T t : Nat) (ht : t ≤ T) (hW : N * T < W) : N * t % W = N * t :=
  Nat.mod_eq_of_lt (lt_of_le_of_lt (Nat.mul_le_mul_left N ht) hW)

/-- Membership in a clamped interval, in linear-arithmetic form. -/
theorem range_mem_aux (a b n : Nat) :
    n ∈ List.range' (max (a + 1) 2) (b + 1 - max (a + 1) 2) ↔
      2 ≤ n ∧ a < n ∧ n ≤ b := by
  rw [List.mem_range'_1]; omega

/-- Characterization of worker `t`'s block: `n` lies in it iff `n ≥ 2`,
`N*t < n*T` and `n*T ≤ N*(t+1)` (no overflow assumed). -/
theorem mem_blockList_iff (N T t n : Nat) (hT : 0 < T) (ht : t < T)
    (hW : N * T < W) :
    n ∈ blockList N T t ↔ 2 ≤ n ∧ N * t < n * T ∧ n * T ≤ N * (t + 1) := by
  unfold blockList blockLo blockHi
  rw [mulModW N T t (le_of_lt ht) hW, mulModW N T (t + 1) ht hW, range_mem_aux,
    Nat.div_lt_iff_lt_mul hT, Nat.le_div_iff_mul_le hT]

/-- Distinct workers' blocks are disjoint. -/
theorem blockList_disjoint (N T t t' n : Nat) (hT : 0 < T) (ht : t < T)
    (ht' : t' < T) (hne : t ≠ t') (hW : N * T < W)
    (h1 : n ∈ blockList N T t) (h2 : n ∈ blockList N T t') : False := by
  rw [mem_blockList_iff N T t n hT ht hW] at h1
  rw [mem_blockList_iff N T t' n hT ht' hW] at h2
  rcases Nat.lt_or_ge t t' with h | h
  · have h3 : N * (t + 1) ≤ N * t' := Nat.mul_le_mul_left N h
    omega
  · have h4 : t' < t := lt_of_le_of_ne h (Ne.symm hne)
    have h3 : N * (t' + 1) ≤ N * t := Nat.mul_le_mul_left N h4
    omega

/-- Every `n` in `[2, N]` lies in the block of worker `(n*T - 1) / N`. -/
theorem blockList_cover (N T n : Nat) (hT : 0 < T) (hW : N * T < W)
    (hn2 : 2 ≤ n) (hnN : n ≤ N) :
    (n * T - 1) / N < T ∧ n ∈ blockList N T ((n * T - 1) / N) := by
  have hN0 : 0 < N := by omega
  have hmT : n * T ≤ N * T := Nat.mul_le_mul_right T hnN
  have hm1 : 0 < n * T := Nat.mul_pos (by omega) hT
  have htT : (n * T - 1) / N < T := by
    rw [Nat.div_lt_iff_lt_mul hN0]
    have hc : N * T = T * N := Nat.mul_comm N T
    omega
  refine ⟨htT, ?_⟩
  rw [mem_blockList_iff N T _ n hT htT hW]
  refine ⟨hn2, ?_, ?_⟩
  · have h5 : (n * T - 1) / N * N ≤ n * T - 1 := Nat.div_mul_le_self _ N
    have h6 : (n * T - 1) / N * N = N * ((n * T - 1) / N) := Nat.mul_comm _ _
    omega
  · have hq := Nat.div_add_mod (n * T - 1) N
    have hr : (n * T - 1) % N < N := Nat.mod_lt _ hN0
    have hx : N * ((n * T - 1) / N + 1) = N * ((n * T - 1) / N) + N := by ring
    omega

/-- The blocks, concatenated in worker order, are exactly the scan of
`[2, N*k/T]`: the prefix covered after the first `k` workers. -/
theorem flatten_blocks (N T : Nat) (hT : 0 < T) (hW : N * T < W) :
    ∀ k, k ≤ T →
      (List.range k).flatMap (blockList N T) = List.range' 2 (N * k / T + 1 - 2) := by
  intro k
  induction k with
  | zero => intro _; simp
  | succ k ih =>
    intro hk
    rw [List.range_succ, List.flatMap_append, ih (by omega), List.flatMap_cons,
      List.flatMap_nil, List.append_nil]
    unfold blockList blockLo blockHi
    rw [mulModW N T k (by omega) hW, mulModW N T (k + 1) hk hW]
    have hab : N * k / T ≤ N * (k + 1) / T :=
      Nat.div_le_div_right (Nat.mul_le_mul_left N (by omega))
    by_cases ha : N * k / T = 0
    · rw [ha]
      have h1 : (0 : Nat) + 1 - 2 = 0 := by omega
      have h2 : max (0 + 1) 2 = 2 := by omega
      rw [h1, h2]
      simp
    · have ha1 : 1 ≤ N * k / T := Nat.one_le_iff_ne_zero.mpr ha
      have h2 : max (N * k / T + 1) 2 = N * k / T + 1 := by omega
      rw [h2]
      have e1 : N * k / T + 1 - 2 = N * k / T - 1 := by omega
      have e2 : N * (k + 1) / T + 1 - (N * k / T + 1) = N * (k + 1) / T - N * k / T := by
        omega
      have e3 : N * (k + 1) / T + 1 - 2 =
          N * (k + 1) / T - N * k / T + (N * k / T - 1) := by omega
      have e4 : N * k / T + 1 = 2 + 1 * (N * k / T - 1) := by omega
      rw [e1, e2, e3, e4, List.range'_append]

/-- All `T` blocks, concatenated in worker order, scan exactly `[2, N]`. -/
theorem flatten_blocks_all (N T : Nat) (hT : 0 < T) (hW : N * T < W) :
    (List.range T).flatMap (blockList N T) = List.range' 2 (N + 1 - 2) := by
  have h := flatten_blocks N T hT hW T le_rfl
  rwa [Nat.mul_div_cancel N hT] at h

/-- `filter` distributes over `flatMap`. -/
theorem filter_flatMap_comm {α β : Type} (l : List α) (f : α → List β)
    (p : β → Bool) :
    (l.flatMap f).filter p = l.flatMap (fun a => (f a).filter p) := by
  induction l with
  | nil => rfl
  | cons a l ih => rw [List.flatMap_cons, List.flatMap_cons, List.filter_append, ih]

/-- Each worker's processed contribution is the length of its scan list. -/
theorem blockProcessed_eq_length (N T t : Nat) :
    blockProcessed N T t = (blockList N T t).length := by
  unfold blockProcessed blockList
  rw [List.length_range']

/-- The per-worker processed contributions sum to `N - 1` (no overflow). -/
theorem blocks_sum (N T : Nat) (hT : 0 < T) (hW : N * T < W) :
    ((List.range T).map (blockProcessed N T)).sum = N - 1 := by
  rw [show blockProcessed N T = fun t => (blockList N T t).length from
    funext (blockProcessed_eq_length N T)]
  have h := (List.length_flatMap (List.range T) (blockList N T)).symm
  calc ((List.range T).map fun t => (blockList N T t).length).sum
      = ((List.range T).flatMap (blockList N T)).length := h
    _ = (List.range' 2 (N + 1 - 2)).length := by rw [flatten_blocks_all N T hT hW]
    _ = N - 1 := by rw [List.length_range']; omega

/-! ### The two primality predicates agree -/

/-- A `6k±1` residue is odd. -/
theorem is6_odd (d : Nat) (h : is_6kpm1 d = true) : d % 2 = 1 := by
  unfold is_6kpm1 at h
  simp only [Bool.or_eq_true, beq_iff_eq] at h
  omega

/-- The odd-then-`6k` filtering of `is_prime_parallel`'s candidate build
yields exactly the divisor sequence of `is_prime_single`. -/
theorem candTail_eq (cfg : Config) (limit : Nat) :
    ((List.range' 3 (limit + 1 - 3)).filter (fun d => d % 2 == 1)).filter
        (fun d => !cfg.use_6k || is_6kpm1 d) = singleDivs cfg limit := by
  unfold singleDivs
  by_cases h6 : cfg.use_6k
  · rw [h6, List.filter_filter]
    refine List.filter_congr (fun d _ => ?_)
    by_cases hd : is_6kpm1 d = true
    · have ho : (d % 2 == 1) = true := by simp [is6_odd d hd]
      simp [hd, ho]
    · simp [Bool.not_eq_true] at hd
      simp [hd]
  · simp only [Bool.not_eq_true] at h6
    rw [h6]
    simp

/-- `is_prime_parallel` and `is_prime_single` decide the same predicate:
the early-exit race and the thread partition do not change the verdict. -/
theorem parallel_eq_single (cfg : Config) (n : Nat) :
    isPrimeParallel cfg n = isPrimeSingle cfg n := by
  unfold isPrimeParallel isPrimeSingle candList
  by_cases h1 : n < 2
  · simp [h1]
  by_cases h2 : n = 2
  · simp [h2]
  have hne : (n == 2) = false := by simp [h2]
  by_cases hodd : n % 2 = 1
  · have hev : (n % 2 == 0) = false := by simp; omega
    simp only [if_neg h1, hne, Bool.false_eq_true, if_false, hev, Bool.and_false,
      List.all_append, candTail_eq]
    by_cases hsk : cfg.skip_even
    · simp [hsk]
    · simp only [Bool.not_eq_true] at hsk
      simp [hsk, hev]
  · have hev : (n % 2 == 0) = true := by simp; omega
    by_cases hsk : cfg.skip_even
    · simp [h1, hne, hev, hsk]
    · simp only [Bool.not_eq_true] at hsk
      simp [h1, hne, hev, hsk]

/-- The per-number driver's push condition agrees with `is_prime_single`:
the driver's even shortcut only skips numbers both predicates reject. -/
theorem keeps_eq_single (cfg : Config) (n : Nat) :
    perNumberKeeps cfg n = isPrimeSingle cfg n := by
  unfold perNumberKeeps
  rw [parallel_eq_single]
  by_cases hg : (cfg.skip_even && decide (2 < n) && (n % 2 == 0)) = true
  · simp only [Bool.and_eq_true, decide_eq_true_eq, beq_iff_eq] at hg
    obtain ⟨⟨hsk, hn2⟩, hev⟩ := hg
    have h1 : ¬ n < 2 := by omega
    have h2 : (n == 2) = false := by simp; omega
    have h3 : (n % 2 == 0) = true := by simp [hev]
    simp [isPrimeSingle, h1, h2, h3, hsk]
  · simp only [Bool.not_eq_true] at hg
    rw [hg]
    simp

/-- `run_division_per_number` pushes exactly the `is_prime_single`-primes
of `[2, N]`, in ascending order. -/
theorem perNumber_primes_eq (cfg : Config) :
    (runDivisionPerNumber cfg).primes =
      (List.range' 2 (cfg.max_value + 1 - 2)).filter (isPrimeSingle cfg) := by
  exact List.filter_congr (fun n _ => keeps_eq_single cfg n)

/-! ### Range-mode run facts -/

/-- Whatever the merge order, a Range run's primes list is a permutation
of the `is_prime_single`-primes of `[2, N]`. -/
theorem rangePrimes_perm (cfg : Config) (order : List Nat)
    (hperm : order.Perm (List.range (clampT cfg.threads)))
    (hW : cfg.max_value * clampT cfg.threads < W) :
    (runDivisionRange cfg order).primes.Perm
      ((List.range' 2 (cfg.max_value + 1 - 2)).filter (isPrimeSingle cfg)) := by
  have hT : 0 < clampT cfg.threads := clampT_pos _
  have h2 := List.Perm.flatMap_right (fun t => blockPrimes cfg t) hperm
  refine h2.trans ?_
  have h3 : (List.range (clampT cfg.threads)).flatMap (fun t => blockPrimes cfg t) =
      ((List.range (clampT cfg.threads)).flatMap
        (blockList cfg.max_value (clampT cfg.threads))).filter (isPrimeSingle cfg) := by
    rw [filter_flatMap_comm]
    rfl
  rw [h3, flatten_blocks_all _ _ hT hW]

/-- A Range run's `processed` is the (u64) sum of the per-worker
contributions, whatever the merge order. -/
theorem rangeProcessed_eq (cfg : Config) (order : List Nat)
    (hperm : order.Perm (List.range (clampT cfg.threads))) :
    (runDivisionRange cfg order).processed = (perThreadProcessed cfg).sum % W := by
  show (order.map _).sum % W = _
  rw [List.Perm.sum_eq (List.Perm.map _ hperm)]
  rfl

/-- Without overflow, a Range run's `processed` is `N - 1`. -/
theorem rangeProcessed_val (cfg : Config) (order : List Nat)
    (hperm : order.Perm (List.range (clampT cfg.threads)))
    (hW : cfg.max_value * clampT cfg.threads < W) :
    (runDivisionRange cfg order).processed = cfg.max_value - 1 := by
  rw [rangeProcessed_eq cfg order hperm]
  unfold perThreadProcessed
  rw [blocks_sum cfg.max_value (clampT cfg.threads) (clampT_pos _) hW]
  have hN : cfg.max_value ≤ cfg.max_value * clampT cfg.threads :=
    Nat.le_mul_of_pos_right _ (clampT_pos _)
  exact Nat.mod_eq_of_lt (by omega)

/-! ### Claim theorems -/

/-- C2: the claim says `isPrime(n, skipEven, use6k)` agrees with a trusted
primality oracle on `[0, 100000]` for all four flag combinations, and the
code is wrong: with `use6k` set, the divisor loop starts at 3 but skips
`d = 3` itself (`3 % 6 = 3` is not in `{1, 5}`), so the composite 9 = 3·3
is reported prime by both the single and the parallel tester. -/
theorem C2_use6k_misses_divisor_3 :
    isPrimeSingle ⟨8, 50000, true, true, 0⟩ 9 = true ∧
    isPrimeParallel ⟨8, 50000, true, true, 0⟩ 9 = true ∧
    ¬ Nat.Prime 9 :=
  ⟨by decide, by decide, by norm_num⟩

/-- C4 (amended): for `T` in `[1, 64]` and `N ≤ 10000`, the Range-mode
blocks are pairwise disjoint, cover `{2, ..., N}` exactly, `lo(0) = 2`,
`hi(T-1) = N`, `lo(t+1) = max(2, hi(t)+1)` (the clamp can fire, so plain
`hi(t)+1` fails), and the block sizes sum to `max(0, N-1)`. -/
theorem C4_block_partition (T N : Nat) (hT1 : 1 ≤ T) (hT64 : T ≤ 64)
    (hN : N ≤ 10000) :
    (∀ t t' n, t < T → t' < T → t ≠ t' → n ∈ blockList N T t → n ∉ blockList N T t') ∧
    (∀ n, (∃ t, t < T ∧ n ∈ blockList N T t) ↔ 2 ≤ n ∧ n ≤ N) ∧
    blockLo N T 0 = 2 ∧
    blockHi N T (T - 1) = N ∧
    (∀ t, t + 1 < T → blockLo N T (t + 1) = max (blockHi N T t + 1) 2) ∧
    (((List.range T).map (blockProcessed N T)).sum : Int) = max 0 ((N : Int) - 1) := by
  have hT0 : 0 < T := hT1
  have hW : N * T < W := lt_of_le_of_lt (Nat.mul_le_mul hN hT64) (by norm_num [W])
  refine ⟨?_, ?_, ?_, ?_, ?_, ?_⟩
  · intro t t' n ht ht' hne h1 h2
    exact blockList_disjoint N T t t' n hT0 ht ht' hne hW h1 h2
  · intro n
    constructor
    · rintro ⟨t, ht, hmem⟩
      rw [mem_blockList_iff N T t n hT0 ht hW] at hmem
      obtain ⟨hn2, _, h4⟩ := hmem
      refine ⟨hn2, ?_⟩
      have h5 : N * (t + 1) ≤ N * T := Nat.mul_le_mul_left N ht
      exact Nat.le_of_mul_le_mul_right (le_trans h4 h5) hT0
    · rintro ⟨h2, hN'⟩
      obtain ⟨ht, hmem⟩ := blockList_cover N T n hT0 hW h2 hN'
      exact ⟨_, ht, hmem⟩
  · show max (N * 0 % W / T + 1) 2 = 2
    rw [Nat.mul_zero, Nat.zero_mod, Nat.zero_div]
    omega
  · show N * (T - 1 + 1) % W / T = N
    rw [Nat.sub_add_cancel hT1, mulModW N T T le_rfl hW, Nat.mul_div_cancel N hT0]
  · intro t _
    rfl
  · rw [blocks_sum N T hT0 hW]
    omega

/-- Witness for C4's theorem at `T = 3`, `N = 30`. -/
theorem C4_block_partition_witness :
    blockLo 30 3 0 = 2 ∧ blockHi 30 3 (3 - 1) = 30 ∧
      (((List.range 3).map (blockProcessed 30 3)).sum : Int) = max 0 ((30 : Int) - 1) :=
  ⟨(C4_block_partition 3 30 (by decide) (by decide) (by decide)).2.2.1,
   (C4_block_partition 3 30 (by decide) (by decide) (by decide)).2.2.2.1,
   (C4_block_partition 3 30 (by decide) (by decide) (by decide)).2.2.2.2.2⟩

/-- C4 counterexample: at `T = 2`, `N = 1` (inside the claim's quantified
ranges) the clamp fires: `lo(1) = 2` while `hi(0) + 1 = 1`, so the claimed
`lo(t+1) = hi(t) + 1` is false as stated. -/
theorem C4_counterexample :
    blockLo 1 2 1 = 2 ∧ blockHi 1 2 0 = 0 ∧ blockLo 1 2 1 ≠ blockHi 1 2 0 + 1 := by
  decide

/-- C3 (amended): in the scenario `N = 30, T = 3, skipEven, no 6k`, Range
mode finds exactly the primes `{2,...,29}` (as a permutation, whatever the
merge order), `processed = 29`, but the blocks are `[2-10], [11-20],
[21-30]` with per-thread processed counts `[9, 10, 10]` — not the claimed
`[2-11], [12-21], [22-30]` / `[10, 10, 9]` — and `lo(0)` is clamped to 2. -/
theorem C3_scenario (order : List Nat) (hperm : order.Perm (List.range 3)) :
    (runDivisionRange cfgC3 order).primes.Perm [2, 3, 5, 7, 11, 13, 17, 19, 23, 29] ∧
    (runDivisionRange cfgC3 order).processed = 29 ∧
    blockOf 30 3 0 = (2, 10) ∧ blockOf 30 3 1 = (11, 20) ∧ blockOf 30 3 2 = (21, 30) ∧
    (List.range 3).map (blockProcessed 30 3) = [9, 10, 10] ∧
    blockLo 30 3 0 = 2 := by
  have hperm' : order.Perm (List.range (clampT cfgC3.threads)) := by
    have hc : clampT cfgC3.threads = 3 := by decide
    rw [hc]; exact hperm
  refine ⟨?_, ?_, by decide, by decide, by decide, by decide, by decide⟩
  · have h := rangePrimes_perm cfgC3 order hperm' (by decide)
    refine h.trans ?_
    have he : (List.range' 2 (cfgC3.max_value + 1 - 2)).filter (isPrimeSingle cfgC3) =
        [2, 3, 5, 7, 11, 13, 17, 19, 23, 29] := by decide
    rw [he]
  · rw [rangeProcessed_val cfgC3 order hperm' (by decide)]
    decide

/-- Witness for C3's theorem at the in-order merge `[0, 1, 2]`. -/
theorem C3_scenario_witness :
    (runDivisionRange cfgC3 [0, 1, 2]).primes.Perm [2, 3, 5, 7, 11, 13, 17, 19, 23, 29] ∧
    (runDivisionRange cfgC3 [0, 1, 2]).processed = 29 ∧
    blockOf 30 3 0 = (2, 10) ∧ blockOf 30 3 1 = (11, 20) ∧ blockOf 30 3 2 = (21, 30) ∧
    (List.range 3).map (blockProcessed 30 3) = [9, 10, 10] ∧
    blockLo 30 3 0 = 2 :=
  C3_scenario [0, 1, 2] (by decide)

/-- C3 counterexample: thread 0's block is `[2-10]`, not the claimed
`[2-11]`, and the per-thread processed counts are `[9, 10, 10]`, not
`[10, 10, 9]`. -/
theorem C3_counterexample :
    blockOf 30 3 0 = (2, 10) ∧ blockOf 30 3 0 ≠ (2, 11) ∧
      (List.range 3).map (blockProcessed 30 3) ≠ [10, 10, 9] := by
  decide

/-- `usqrtGo n b` is the floor square root as soon as `b` bounds it. -/
theorem usqrtGo_eq (n : Nat) : ∀ b, Nat.sqrt n ≤ b → usqrtGo n b = Nat.sqrt n := by
  intro b
  induction b with
  | zero => intro h; unfold usqrtGo; omega
  | succ b ih =>
    intro h
    unfold usqrtGo
    by_cases hb : (b + 1) * (b + 1) <= n
    · rw [if_pos hb]
      have h1 : b + 1 ≤ Nat.sqrt n := Nat.le_sqrt.mpr hb
      omega
    · rw [if_neg hb]
      refine ih ?_
      have h2 : ¬ b + 1 ≤ Nat.sqrt n := fun hc => hb (Nat.le_sqrt.mp hc)
      omega

/-- The executable `usqrt` agrees with Mathlib's floor square root. -/
theorem usqrt_eq_sqrt (n : Nat) : usqrt n = Nat.sqrt n :=
  usqrtGo_eq n n (Nat.sqrt_le_self n)

/-- C5: with identical settings (`N` in the claim's three values, any
thread count in `int` range, same flags), Range mode and PerNumber mode
produce the same set of primes, whatever Range's merge order. -/
theorem C5_same_prime_set (cfg : Config)
    (hN : cfg.max_value = 100 ∨ cfg.max_value = 1000 ∨ cfg.max_value = 10000)
    (hth : cfg.threads ≤ 2 ^ 31) (order : List Nat)
    (hperm : order.Perm (List.range (clampT cfg.threads))) :
    (runDivisionRange cfg order).primes.toFinset =
      (runDivisionPerNumber cfg).primes.toFinset := by
  have h1 : clampT cfg.threads ≤ 2 ^ 31 := by unfold clampT; omega
  have h2 : cfg.max_value ≤ 10000 := by rcases hN with h | h | h <;> omega
  have hW : cfg.max_value * clampT cfg.threads < W := by
    calc cfg.max_value * clampT cfg.threads ≤ 10000 * 2 ^ 31 := Nat.mul_le_mul h2 h1
      _ < W := by norm_num [W]
  have hp := rangePrimes_perm cfg order hperm hW
  rw [perNumber_primes_eq]
  exact List.toFinset_eq_of_perm _ _ hp

/-- Witness for C5's theorem: `N = 100`, four threads, an out-of-order
merge. -/
theorem C5_same_prime_set_witness :
    (runDivisionRange ⟨4, 100, true, false, 0⟩ [2, 0, 1, 3]).primes.toFinset =
      (runDivisionPerNumber ⟨4, 100, true, false, 0⟩).primes.toFinset :=
  C5_same_prime_set ⟨4, 100, true, false, 0⟩ (Or.inl rfl) (by decide) [2, 0, 1, 3]
    (by decide)

/-- C6: when the last worker outcome has been merged, the Range-mode
result record is self-consistent: the per-worker processed contributions
sum (as u64) to `processed`, the per-thread prime counts sum to the length
of `primes`, and every recorded prime passes the engine's own
`is_prime_single`. -/
theorem C6_result_invariants (cfg : Config) (order : List Nat)
    (hperm : order.Perm (List.range (clampT cfg.threads))) :
    (perThreadProcessed cfg).sum % W = (runDivisionRange cfg order).processed ∧
    (runDivisionRange cfg order).primes_per_thread.sum =
      (runDivisionRange cfg order).primes.length ∧
    ∀ p ∈ (runDivisionRange cfg order).primes, isPrimeSingle cfg p = true := by
  refine ⟨(rangeProcessed_eq cfg order hperm).symm, ?_, ?_⟩
  · show ((List.range (clampT cfg.threads)).map fun t => (blockPrimes cfg t).length).sum
      = (order.flatMap fun t => blockPrimes cfg t).length
    rw [(List.Perm.flatMap_right (fun t => blockPrimes cfg t) hperm).length_eq,
      List.length_flatMap]
    rfl
  · intro p hp
    have hp' : p ∈ order.flatMap (fun t => blockPrimes cfg t) := hp
    obtain ⟨t, _, hpt⟩ := List.mem_flatMap.mp hp'
    exact List.of_mem_filter hpt

/-- Witness for C6's theorem at `N = 20`, two threads, reversed merge
order. -/
theorem C6_result_invariants_witness :
    (perThreadProcessed ⟨2, 20, true, false, 0⟩).sum % W =
        (runDivisionRange ⟨2, 20, true, false, 0⟩ [1, 0]).processed ∧
      (runDivisionRange ⟨2, 20, true, false, 0⟩ [1, 0]).primes_per_thread.sum =
        (runDivisionRange ⟨2, 20, true, false, 0⟩ [1, 0]).primes.length :=
  ⟨(C6_result_invariants ⟨2, 20, true, false, 0⟩ [1, 0] (by decide)).1,
   (C6_result_invariants ⟨2, 20, true, false, 0⟩ [1, 0] (by decide)).2.1⟩

/-- C8: `N = 0` and `N = 1` yield no primes and `processed = 0` in both
modes; `N = 2` yields exactly the prime set `{2}` and `processed = 1`. -/
theorem C8_boundary (cfg : Config) (order : List Nat) (hth : cfg.threads ≤ 2 ^ 31)
    (hperm : order.Perm (List.range (clampT cfg.threads))) :
    ((cfg.max_value = 0 ∨ cfg.max_value = 1) →
      (runDivisionRange cfg order).primes = [] ∧
      (runDivisionRange cfg order).processed = 0 ∧
      (runDivisionPerNumber cfg).primes = [] ∧
      (runDivisionPerNumber cfg).processed = 0) ∧
    (cfg.max_value = 2 →
      (runDivisionRange cfg order).primes.Perm [2] ∧
      (runDivisionRange cfg order).processed = 1 ∧
      (runDivisionPerNumber cfg).primes = [2] ∧
      (runDivisionPerNumber cfg).processed = 1) := by
  have h1 : clampT cfg.threads ≤ 2 ^ 31 := by unfold clampT; omega
  constructor
  · intro hN
    have hN2 : cfg.max_value ≤ 1 := by rcases hN with h | h <;> omega
    have hW : cfg.max_value * clampT cfg.threads < W := by
      calc cfg.max_value * clampT cfg.threads ≤ 1 * 2 ^ 31 := Nat.mul_le_mul hN2 h1
        _ < W := by norm_num [W]
    have hlen : cfg.max_value + 1 - 2 = 0 := by omega
    have hp := rangePrimes_perm cfg order hperm hW
    rw [hlen] at hp
    refine ⟨List.Perm.eq_nil (by simpa using hp), ?_, ?_, ?_⟩
    · rw [rangeProcessed_val cfg order hperm hW]
      omega
    · rw [perNumber_primes_eq, hlen]
      rfl
    · show (List.range' 2 (cfg.max_value + 1 - 2)).length % W = 0
      rw [hlen]
      rfl
  · intro hN
    have hW : cfg.max_value * clampT cfg.threads < W := by
      rw [hN]
      calc 2 * clampT cfg.threads ≤ 2 * 2 ^ 31 := Nat.mul_le_mul_left 2 h1
        _ < W := by norm_num [W]
    have hlen : cfg.max_value + 1 - 2 = 1 := by omega
    have hone : List.range' 2 1 = [2] := rfl
    have h2 : isPrimeSingle cfg 2 = true := by simp [isPrimeSingle]
    have hfil : (List.range' 2 1).filter (isPrimeSingle cfg) = [2] := by
      rw [hone, List.filter_cons]
      simp [h2]
    have hp := rangePrimes_perm cfg order hperm hW
    rw [hlen, hfil] at hp
    refine ⟨hp, ?_, ?_, ?_⟩
    · rw [rangeProcessed_val cfg order hperm hW, hN]
    · rw [perNumber_primes_eq, hlen, hfil]
    · show (List.range' 2 (cfg.max_value + 1 - 2)).length % W = 1
      rw [hlen]
      rfl

/-- Witness for C8's theorem at `N = 2`, one thread. -/
theorem C8_boundary_witness :
    (runDivisionRange ⟨1, 2, true, false, 0⟩ [0]).primes.Perm [2] ∧
      (runDivisionRange ⟨1, 2, true, false, 0⟩ [0]).processed = 1 ∧
      (runDivisionPerNumber ⟨1, 2, true, false, 0⟩).primes = [2] ∧
      (runDivisionPerNumber ⟨1, 2, true, false, 0⟩).processed = 1 :=
  (C8_boundary ⟨1, 2, true, false, 0⟩ [0] (by decide) (by decide)).2 rfl

/-- C9 (amended): as long as the u64 block products do not overflow
(`N·T < 2^64`) and the scan loops terminate (`N < 2^64 - 1`, since at
`N = UINT64_MAX` the loops `n <= hi` / `n <= N` never exit) — both side
conditions hold throughout the spec's quantified ranges — both modes
report `processed = max(0, N-1)`; in PerNumber mode the evens skipped by
`skipEven` are counted like every other candidate. -/
theorem C9_processed_total (cfg : Config) (order : List Nat)
    (hperm : order.Perm (List.range (clampT cfg.threads)))
    (hW : cfg.max_value * clampT cfg.threads < W)
    (hNmax : cfg.max_value < W - 1) :
    ((runDivisionRange cfg order).processed : Int) = max 0 ((cfg.max_value : Int) - 1) ∧
    ((runDivisionPerNumber cfg).processed : Int) = max 0 ((cfg.max_value : Int) - 1) := by
  have hN : cfg.max_value < W :=
    lt_of_le_of_lt (Nat.le_mul_of_pos_right _ (clampT_pos _)) hW
  constructor
  · rw [rangeProcessed_val cfg order hperm hW]
    omega
  · show ((List.range' 2 (cfg.max_value + 1 - 2)).length % W : Int) = _
    rw [List.length_range', show W = 18446744073709551616 from by norm_num [W]]
    have hN' : cfg.max_value < 18446744073709551616 := by
      have hw : W = 18446744073709551616 := by norm_num [W]
      omega
    omega

/-- Witness for C9's theorem at `N = 10` (skipEven on), two threads,
reversed merge order. -/
theorem C9_processed_total_witness :
    ((runDivisionRange ⟨2, 10, true, false, 0⟩ [1, 0]).processed : Int) =
        max 0 ((10 : Int) - 1) ∧
      ((runDivisionPerNumber ⟨2, 10, true, false, 0⟩).processed : Int) =
        max 0 ((10 : Int) - 1) :=
  C9_processed_total ⟨2, 10, true, false, 0⟩ [1, 0] (by decide) (by decide)
    (by norm_num [W])

/-- C9 counterexample: for `N = 2^63`, `T = 3` the u64 products
`N * 1ULL * t` wrap, the blocks overlap/shrink, and Range mode's
`processed` is 6148914691236517202, not `N - 1 = 9223372036854775807`:
the claim's "for every bound N" fails on the code. -/
theorem C9_overflow_counterexample :
    (runDivisionRange ⟨3, 2 ^ 63, true, false, 0⟩ [0, 1, 2]).processed =
        6148914691236517202 ∧
      (2 : Nat) ^ 63 - 1 = 9223372036854775807 ∧
      (6148914691236517202 : Nat) ≠ 9223372036854775807 := by
  refine ⟨by decide, by norm_num, by norm_num⟩

/-- A Range run only reads the thread count through `std::max(1, ·)`:
configs whose clamped counts agree produce identical records. -/
theorem runRange_congr_clampT (th th' : Int) (N : Nat) (sk u6 : Bool) (le : Int)
    (h : clampT th = clampT th') (order : List Nat) :
    runDivisionRange ⟨th, N, sk, u6, le⟩ order =
      runDivisionRange ⟨th', N, sk, u6, le⟩ order := by
  unfold runDivisionRange blockPrimes blockList blockProcessed blockLo blockHi
  rw [h]
  rfl

/-- C10: a non-positive `threads` is clamped to 1 by every entry point
(`std::max(1, cfg.threads)` in both drivers and in `is_prime_parallel`),
so the run behaves exactly as with `threads = 1`. -/
theorem C10_thread_clamp (cfg : Config) (h : cfg.threads ≤ 0) (order : List Nat) :
    runDivisionRange cfg order =
        runDivisionRange ⟨1, cfg.max_value, cfg.skip_even, cfg.use_6k, cfg.log_every⟩
          order ∧
      runDivisionPerNumber cfg =
        runDivisionPerNumber ⟨1, cfg.max_value, cfg.skip_even, cfg.use_6k, cfg.log_every⟩ ∧
      ∀ n, isPrimeParallel cfg n =
        isPrimeParallel ⟨1, cfg.max_value, cfg.skip_even, cfg.use_6k, cfg.log_every⟩ n := by
  obtain ⟨th, N, sk, u6, le⟩ := cfg
  have h0 : th ≤ 0 := h
  have hc : clampT th = clampT 1 := by unfold clampT; omega
  exact ⟨runRange_congr_clampT th 1 N sk u6 le hc order, rfl, fun n => rfl⟩

/-- Witness for C10's theorem at `threads = -5`, `N = 10`. -/
theorem C10_thread_clamp_witness :
    runDivisionRange ⟨-5, 10, true, false, 0⟩ [0] =
        runDivisionRange ⟨1, 10, true, false, 0⟩ [0] ∧
      runDivisionPerNumber ⟨-5, 10, true, false, 0⟩ =
        runDivisionPerNumber ⟨1, 10, true, false, 0⟩ :=
  ⟨(C10_thread_clamp ⟨-5, 10, true, false, 0⟩ (by decide) [0]).1,
   (C10_thread_clamp ⟨-5, 10, true, false, 0⟩ (by decide) [0]).2.1⟩

/-- C1 (amended): in Deferred mode nothing is printed during the run;
`Logger::flush` prints the buffered events exactly in the order they were
appended — none lost, none duplicated — and clears the buffer.  It does
NOT regroup them by category or sort them (see the counterexample). -/
theorem C1_deferred_prints_insertion_order (es : List Event) :
    (loggerFlush (es.foldl (loggerRaw PMode.DEFERRED) ⟨[], []⟩)).out = es ∧
    (es.foldl (loggerRaw PMode.DEFERRED) ⟨[], []⟩).out = [] ∧
    (loggerFlush (es.foldl (loggerRaw PMode.DEFERRED) ⟨[], []⟩)).buf = [] := by
  have key : ∀ (l : List Event) (st : LoggerSt),
      l.foldl (loggerRaw PMode.DEFERRED) st = ⟨st.buf ++ l, st.out⟩ := by
    intro l
    induction l with
    | nil => intro st; simp [loggerRaw]
    | cons e l ih =>
      intro st
      rw [List.foldl_cons, ih]
      simp [loggerRaw]
  rw [key]
  simp [loggerFlush]

/-- C1 counterexample: the deferred output of that run is
`RUN, START, PRIME 2, PRIME 3, FINISH, RUN` — a `PRIME` line precedes the
`FINISH` line, so the output is not partitioned into Start/Finish/Prime
groups as claimed. -/
theorem C1_counterexample :
    deferredRangeOut cfgC1 =
        [⟨-1, Category.RUN, [3, 1]⟩, ⟨0, Category.START, [2, 3]⟩,
         ⟨0, Category.PRIME, [2]⟩, ⟨0, Category.PRIME, [3]⟩,
         ⟨0, Category.FINISH, [2, 3]⟩, ⟨-1, Category.RUN, []⟩] ∧
      ¬ groupedByCategory (deferredRangeOut cfgC1) := by
  constructor
  · decide
  · intro h
    have h2 : (deferredRangeOut cfgC1).filterMap (fun e => catRank e.cat) =
        [0, 2, 2, 1] := by decide
    rw [groupedByCategory, h2] at h
    have h3 := (List.pairwise_cons.mp (List.pairwise_cons.mp h).2).2
    have h4 := (List.pairwise_cons.mp h3).1 1 (by decide)
    omega

/-- C7 (amended): in PerNumber mode every `PRIME` log line carries thread
id 0 (the driver logs all primes under thread 0; there is no round-robin
owner rotation), and the per-thread counters are never filled
(`primes_per_thread` stays empty).  `sched` abstracts the worker batches'
`CHECK` interleavings. -/
theorem C7_prime_logged_thread0 (cfg : Config) (sched : Nat → List Event)
    (hsched : ∀ n, ∀ e ∈ sched n, e.cat = Category.CHECK) :
    ((perNumberEventsWith cfg sched).filter
        (fun e => e.cat == Category.PRIME)).all (fun e => e.tid == 0) = true ∧
    (runDivisionPerNumber cfg).primes_per_thread = [] := by
  refine ⟨?_, rfl⟩
  rw [List.all_eq_true]
  intro e he
  rw [List.mem_filter] at he
  obtain ⟨hmem, hcat⟩ := he
  rw [beq_iff_eq] at hcat
  unfold perNumberEventsWith at hmem
  rw [List.mem_cons] at hmem
  rcases hmem with he1 | hmem
  · rw [he1] at hcat
    simp at hcat
  rw [List.mem_append] at hmem
  rcases hmem with hmem | he2
  · rw [List.mem_flatMap] at hmem
    obtain ⟨n, _, hbody⟩ := hmem
    by_cases hskip : (cfg.skip_even && decide (2 < n) && (n % 2 == 0)) = true
    · rw [if_pos hskip] at hbody
      exact absurd hbody (List.not_mem_nil e)
    · rw [if_neg hskip, List.mem_append] at hbody
      rcases hbody with hb | hb
      · by_cases hsp : batchSpawns cfg n = true
        · rw [if_pos hsp] at hb
          have hc := hsched n e hb
          rw [hc] at hcat
          simp at hcat
        · rw [if_neg hsp] at hb
          exact absurd hb (List.not_mem_nil e)
      · by_cases hpr : isPrimeParallel cfg n = true
        · rw [if_pos hpr, List.mem_singleton] at hb
          rw [hb]
          rfl
        · rw [if_neg hpr] at hb
          exact absurd hb (List.not_mem_nil e)
  · rw [List.mem_singleton] at he2
    rw [he2] at hcat
    simp at hcat

/-- C7 counterexample: the prime `n = 3` (candidate index 1, so claimed
owner `1 mod 3 = 1`) is logged as `PRIME` under thread id 0, and no
`PRIME` line for it under thread id 1 exists; no batch spawns for any
candidate of this run, so the schedule parameter is vacuous. -/
theorem C7_counterexample :
    Event.mk 0 Category.PRIME [3] ∈ perNumberEventsWith cfgC7 (fun _ => []) ∧
      Event.mk 1 Category.PRIME [3] ∉ perNumberEventsWith cfgC7 (fun _ => []) ∧
      (List.range' 2 7).all (fun n => !batchSpawns cfgC7 n) = true ∧
      (3 - 2) % 3 = 1 :=
  ⟨by decide, by decide, by decide, by decide⟩

/-- Witness for C7's theorem at the deterministic `cfgC7` run with the
(vacuous) empty schedule. -/
theorem C7_prime_logged_thread0_witness :
    ((perNumberEventsWith cfgC7 (fun _ => [])).filter
        (fun e => e.cat == Category.PRIME)).all (fun e => e.tid == 0) = true ∧
      (runDivisionPerNumber cfgC7).primes_per_thread = [] :=
  C7_prime_logged_thread0 cfgC7 (fun _ => [])
    (fun _ e he => absurd he (List.not_mem_nil e))
